import Mathlib

/-!
Verification of the deer-flow citation/markdown front-end core.

The development shallowly embeds the logic of two source files:
* `Markdown` component (citation map construction, link classification,
  `dropMarkdownQuote` fence normalization);
* `citation.tsx` (`CitationLink` URL resolution, `CitationCard` access-date
  formatting).

Strings are modelled as `List Char` (JavaScript strings restricted to Unicode
scalar values).  JavaScript library primitives used by the source
(`Map.set`/`Map.get`, `String.prototype.indexOf/slice/startsWith/endsWith/trim`,
`decodeURIComponent`, `encodeURI`, regular-expression tests, `new Date` /
`Date.prototype.toLocaleDateString`) are modelled from their ECMAScript
semantics where noted.
-/

namespace DeerFlow

/-- Models a JavaScript `Map<string, number>` restricted to its observable
`get`/`set` behaviour: `set` prepends a binding and `get` returns the most
recently set value for a key, so a later `set` of the same key overrides an
earlier one, exactly as `Map.prototype.set` does. -/
def mapSet (m : List (List Char × Nat)) (k : List Char) (v : Nat) :
    List (List Char × Nat) :=
  (k, v) :: m

/-- Models `Map.prototype.get` for the representation of `mapSet`: first
(most recent) binding wins. -/
def mapGet (m : List (List Char × Nat)) (k : List Char) : Option Nat :=
  match m with
  | [] => none
  | (a, v) :: rest => if k = a then some v else mapGet rest k

/-! ## dropMarkdownQuote (Markdown component, fence normalization) -/

/-- Opening fence `"```markdown\n"` (first pattern of `patternsToRemove`). -/
def mdPre : List Char := "```markdown\n".data

/-- Opening fence `"```text\n"` (second pattern of `patternsToRemove`). -/
def textPre : List Char := "```text\n".data

/-- Opening fence `"```\n"` (third pattern of `patternsToRemove`). -/
def barePre : List Char := "```\n".data

/-- Closing fence `"\n```"`, shared by all three patterns. -/
def fenceSuf : List Char := "\n```".data

/-- Index of the first occurrence of `pat` as a contiguous substring of `s`
(`String.prototype.indexOf` for a nonempty search string, result `none`
standing for `-1`). -/
def subIdx (pat : List Char) : List Char → Option Nat
  | [] => none
  | c :: rest =>
    if pat.isPrefixOf (c :: rest) then some 0 else (subIdx pat rest).map (· + 1)

/-- `String.prototype.indexOf(pat, start)`: first occurrence of `pat` in `s`
at an index `≥ start`. -/
def findFrom (pat s : List Char) (start : Nat) : Option Nat :=
  (subIdx pat (s.drop start)).map (· + start)

/-- The inner
`while ((startIndex = result.indexOf(prefix, startIndex)) !== -1)` loop of
`dropMarkdownQuote` for one fence pattern: on a full match remove the opening
and closing markers (keeping the content), set the `changed` flag and resume
just past the kept content; on an opening marker with no later closing marker
skip past it.  The loop is fuel-indexed; every iteration strictly decreases
`result.length - startIndex`, so fuel `s.length + 1` (supplied by `sweepOne`)
is never exhausted. -/
def sweepOneGo (pre suf : List Char) (preLen : Nat) :
    Nat → List Char → Nat → Bool → List Char × Bool
  | 0, s, _, ch => (s, ch)
  | fuel + 1, s, start, ch =>
    match findFrom pre s start with
    | none => (s, ch)
    | some i =>
      match findFrom suf s (i + preLen) with
      | some e =>
        sweepOneGo pre suf preLen fuel
          (s.take i ++ ((s.take e).drop (i + preLen)) ++ s.drop (e + suf.length))
          (i + ((s.take e).drop (i + preLen)).length) true
      | none => sweepOneGo pre suf preLen fuel s (i + preLen) ch

/-- One pattern's inner loop, started at index 0 with adequate fuel. -/
def sweepOne (pre suf : List Char) (preLen : Nat) (s : List Char) (ch : Bool) :
    List Char × Bool :=
  sweepOneGo pre suf preLen (s.length + 1) s 0 ch

/-- One full `for (const { prefix, suffix, prefixLen } of patternsToRemove)`
sweep of the `while (changed)` loop body, threading the string and the
`changed` flag through the three patterns in their declared order. -/
def sweepAll (s : List Char) : List Char × Bool :=
  let r1 := sweepOne mdPre fenceSuf 12 s false
  let r2 := sweepOne textPre fenceSuf 8 r1.1 r1.2
  sweepOne barePre fenceSuf 4 r2.1 r2.2

/-- The outer `while (changed)` loop, fuel-indexed.  Every iteration whose
sweep reports a change strictly shortens the string, so fuel `s.length + 1`
(supplied by `normLoop`) is never exhausted. -/
def loopGo : Nat → List Char → List Char
  | 0, s => s
  | fuel + 1, s =>
    let r := sweepAll s
    if r.2 then loopGo fuel r.1 else r.1

/-- The repeat-until-no-change portion of `dropMarkdownQuote`. -/
def normLoop (s : List Char) : List Char :=
  loopGo (s.length + 1) s

/-- The initial unterminated-wrapper pass of `dropMarkdownQuote`: for the
first pattern (in declared order) whose opening fence starts the string while
the closing fence does not end it, strip the opening fence once and stop. -/
def pass1 (s : List Char) : List Char :=
  if mdPre.isPrefixOf s && !(fenceSuf.isSuffixOf s) then s.drop 12
  else if textPre.isPrefixOf s && !(fenceSuf.isSuffixOf s) then s.drop 8
  else if barePre.isPrefixOf s && !(fenceSuf.isSuffixOf s) then s.drop 4
  else s

/-- `dropMarkdownQuote(markdown?: string | null): string | null`.
`none` models `null`/`undefined`; the guard `if (!markdown) return null` is
falsy for `null`, `undefined` and the empty string alike. -/
def dropMarkdownQuote : Option (List Char) → Option (List Char)
  | none => none
  | some m => if m.isEmpty then none else some (normLoop (pass1 m))

/-! ## ECMAScript URI primitives used by the source

The source calls the JavaScript builtins `decodeURIComponent` and
`encodeURI`; they are modelled here from their ECMAScript semantics. -/

/-- Value of a hexadecimal digit character (either case), as read by an
ECMAScript `%XX` escape sequence. -/
def hexVal (c : Char) : Option Nat :=
  if '0' ≤ c ∧ c ≤ '9' then some (c.toNat - 48)
  else if 'A' ≤ c ∧ c ≤ 'F' then some (c.toNat - 55)
  else if 'a' ≤ c ∧ c ≤ 'f' then some (c.toNat - 87)
  else none

/-- Models `decodeURIComponent` (the ECMAScript `Decode` abstract operation
with an empty reserved set): each `%XX` escape contributes one byte, a byte
with the high bit set must head a complete and valid UTF-8 encoding of a
Unicode code point whose continuation bytes are themselves `%XX` escapes,
and any malformed escape or invalid byte sequence throws `URIError`,
modelled as `none`.  All other characters pass through unchanged. -/
def decodeURIComponent : List Char → Option (List Char)
  | [] => some []
  | '%' :: h1 :: h2 :: rest =>
    match hexVal h1, hexVal h2 with
    | some a, some b =>
      let B := 16 * a + b
      if B < 0x80 then (decodeURIComponent rest).map (Char.ofNat B :: ·)
      else if B < 0xC0 then none
      else if B < 0xE0 then
        match rest with
        | '%' :: g1 :: g2 :: rest2 =>
          match hexVal g1, hexVal g2 with
          | some c1, some c2 =>
            let B2 := 16 * c1 + c2
            if 0x80 ≤ B2 ∧ B2 < 0xC0 then
              let V := (B - 0xC0) * 0x40 + (B2 - 0x80)
              if 0x80 ≤ V then (decodeURIComponent rest2).map (Char.ofNat V :: ·)
              else none
            else none
          | _, _ => none
        | _ => none
      else if B < 0xF0 then
        match rest with
        | '%' :: g1 :: g2 :: '%' :: g3 :: g4 :: rest2 =>
          match hexVal g1, hexVal g2, hexVal g3, hexVal g4 with
          | some c1, some c2, some c3, some c4 =>
            let B2 := 16 * c1 + c2
            let B3 := 16 * c3 + c4
            if (0x80 ≤ B2 ∧ B2 < 0xC0) ∧ (0x80 ≤ B3 ∧ B3 < 0xC0) then
              let V := (B - 0xE0) * 0x1000 + (B2 - 0x80) * 0x40 + (B3 - 0x80)
              if 0x800 ≤ V ∧ ¬(0xD800 ≤ V ∧ V ≤ 0xDFFF) then
                (decodeURIComponent rest2).map (Char.ofNat V :: ·)
              else none
            else none
          | _, _, _, _ => none
        | _ => none
      else if B < 0xF8 then
        match rest with
        | '%' :: g1 :: g2 :: '%' :: g3 :: g4 :: '%' :: g5 :: g6 :: rest2 =>
          match hexVal g1, hexVal g2, hexVal g3, hexVal g4, hexVal g5, hexVal g6 with
          | some c1, some c2, some c3, some c4, some c5, some c6 =>
            let B2 := 16 * c1 + c2
            let B3 := 16 * c3 + c4
            let B4 := 16 * c5 + c6
            if (0x80 ≤ B2 ∧ B2 < 0xC0) ∧ (0x80 ≤ B3 ∧ B3 < 0xC0) ∧
                (0x80 ≤ B4 ∧ B4 < 0xC0) then
              let V := (B - 0xF0) * 0x40000 + (B2 - 0x80) * 0x1000 +
                (B3 - 0x80) * 0x40 + (B4 - 0x80)
              if 0x10000 ≤ V ∧ V ≤ 0x10FFFF then
                (decodeURIComponent rest2).map (Char.ofNat V :: ·)
              else none
            else none
          | _, _, _, _, _, _ => none
        | _ => none
      else none
    | _, _ => none
  | '%' :: _ => none
  | c :: rest => (decodeURIComponent rest).map (c :: ·)

/-- The character set `encodeURI` leaves unescaped:
`uriUnescaped ∪ uriReserved ∪ {#}` (ECMAScript `encodeURI`). -/
def encodeURIUnescaped (c : Char) : Bool :=
  decide ((('A' ≤ c ∧ c ≤ 'Z') ∨ ('a' ≤ c ∧ c ≤ 'z') ∨ ('0' ≤ c ∧ c ≤ '9')) ∨
    c ∈ ['-', '_', '.', '!', '~', '*', '\'', '(', ')'] ∨
    c ∈ [';', '/', '?', ':', '@', '&', '=', '+', '$', ','] ∨ c = '#')

/-- UTF-8 encoding of a Unicode code point, as used by the ECMAScript
`Encode` abstract operation. -/
def utf8Bytes (n : Nat) : List Nat :=
  if n < 0x80 then [n]
  else if n < 0x800 then [0xC0 + n / 0x40, 0x80 + n % 0x40]
  else if n < 0x10000 then
    [0xE0 + n / 0x1000, 0x80 + (n / 0x40) % 0x40, 0x80 + n % 0x40]
  else
    [0xF0 + n / 0x40000, 0x80 + (n / 0x1000) % 0x40, 0x80 + (n / 0x40) % 0x40,
      0x80 + n % 0x40]

/-- Uppercase hexadecimal digit, as produced by the ECMAScript `Encode`
abstract operation. -/
def hexDigitUpper (n : Nat) : Char :=
  if n < 10 then Char.ofNat (48 + n) else Char.ofNat (55 + n)

/-- One escaped byte, `"%XY"` with uppercase hex digits. -/
def escapeByte (b : Nat) : List Char :=
  ['%', hexDigitUpper (b / 16), hexDigitUpper (b % 16)]

/-- Models `encodeURI`: characters in `encodeURIUnescaped` pass through,
every other character is UTF-8 encoded and percent-escaped.  (Lean `Char` is
a Unicode scalar value, so the lone-surrogate `URIError` case of `encodeURI`
cannot arise and the model is total.) -/
def encodeURI : List Char → List Char
  | [] => []
  | c :: rest =>
    (if encodeURIUnescaped c then [c]
      else ((utf8Bytes c.toNat).map escapeByte).flatten) ++ encodeURI rest

/-! ## Citation data and the citation map (Markdown component) -/

/-- The `Citation` record of `~/core/messages` (re-exported as
`CitationData`).  Only the fields read by the verified logic are modelled;
the remaining optional descriptive strings and the numeric
`relevance_score` are presentation-only. -/
structure Citation where
  url : List Char
  title : List Char := []
  accessed_at : Option (List Char) := none

/-- The set of keys the `citationMap` construction inserts for one citation,
in insertion order: the raw `url` (skipped entirely when `!c.url`), its
percent-decoded form when decoding succeeds and differs, and its
percent-encoded form when it differs. -/
def keysOf (c : Citation) : List (List Char) :=
  if c.url = [] then []
  else
    [c.url] ++
      (match decodeURIComponent c.url with
        | some d => if d ≠ c.url then [d] else []
        | none => []) ++
      (if encodeURI c.url ≠ c.url then [encodeURI c.url] else [])

/-- One iteration of the `citations?.forEach((c, index) => ...)` body of
`citationMap`: skip falsy urls, then `map.set` the raw url, the decoded
variant behind `try/catch`, and the encoded variant, all at `index`. -/
def insertCitation (m : List (List Char × Nat)) (c : Citation) (i : Nat) :
    List (List Char × Nat) :=
  if c.url = [] then m
  else
    let m1 := mapSet m c.url i
    let m2 := match decodeURIComponent c.url with
      | some d => if d ≠ c.url then mapSet m1 d i else m1
      | none => m1
    if encodeURI c.url ≠ c.url then mapSet m2 (encodeURI c.url) i else m2

/-- The indexed `forEach` over the citation list. -/
def citationMapGo : List Citation → Nat → List (List Char × Nat) →
    List (List Char × Nat)
  | [], _, m => m
  | c :: rest, i, m => citationMapGo rest (i + 1) (insertCitation m c i)

/-- The `citationMap` `useMemo` of the `Markdown` component: a
`Map<string, number>` from every textual URL form to the citation's 0-based
position. -/
def citationMap (citations : List Citation) : List (List Char × Nat) :=
  citationMapGo citations 0 []

/-! ## Link classification (the `a` renderer of the Markdown component) -/

/-- Drop an expected literal from the front of a character list, returning
the remainder on success. -/
def dropLit : List Char → List Char → Option (List Char)
  | [], s => some s
  | _ :: _, [] => none
  | l :: ls, c :: cs => if c = l then dropLit ls cs else none

/-- The test `hrefStr.match(/^#citation-target-(\d+)$/)`, returning the
captured digit group. -/
def targetMatch (s : List Char) : Option (List Char) :=
  match dropLit "#citation-target-".data s with
  | some rest =>
    if rest ≠ [] ∧ rest.all Char.isDigit then some rest else none
  | none => none

/-- The test `hrefStr.match(/^#(?:ref-?)?(\d+)$/)`, returning the captured
digit group, including the regex's backtracking: the optional group consumes
`ref` (optionally followed by `-`) only when the remainder is one or more
digits; otherwise the whole remainder after `#` must be digits. -/
def linkMatch (s : List Char) : Option (List Char) :=
  match s with
  | '#' :: rest =>
    (match dropLit "ref".data rest with
      | some r1 =>
        let r2 := if r1.head? = some '-' then r1.tail else r1
        if r2 ≠ [] ∧ r2.all Char.isDigit then some r2
        else if rest ≠ [] ∧ rest.all Char.isDigit then some rest
        else none
      | none =>
        if rest ≠ [] ∧ rest.all Char.isDigit then some rest else none)
  | _ => none

/-- ECMAScript `WhiteSpace ∪ LineTerminator`: the character class `\s` and
the set trimmed by `String.prototype.trim`. -/
def isJsSpace (c : Char) : Bool :=
  decide (c.toNat ∈ [0x9, 0xA, 0xB, 0xC, 0xD, 0x20, 0xA0, 0x1680, 0x2028,
      0x2029, 0x202F, 0x205F, 0x3000, 0xFEFF] ∨
    (0x2000 ≤ c.toNat ∧ c.toNat ≤ 0x200A))

/-- `String.prototype.trim`: strip `isJsSpace` characters from both ends. -/
def trimJs (s : List Char) : List Char :=
  ((s.dropWhile isJsSpace).reverse.dropWhile isJsSpace).reverse

/-- The whitespace-free core of `/^\s*(?:\[\d+\]|\^?\d+\^?)\s*$/`: either a
bracketed run of digits or a digit run with an optional leading and/or
trailing caret. -/
def inlineCore (t : List Char) : Bool :=
  (match t with
    | '[' :: r =>
      (match r.reverse with
        | ']' :: ds => decide (ds ≠ [] ∧ ds.all Char.isDigit)
        | _ => false)
    | _ => false) ||
  (let u := match t with
    | '^' :: r => r
    | _ => t
   let w := match u.reverse with
    | '^' :: r => r.reverse
    | _ => u
   decide (w ≠ [] ∧ w.all Char.isDigit))

/-- The test `inlineCitationPattern.test(childrenText)` for
`/^\s*(?:\[\d+\]|\^?\d+\^?)\s*$/`; the core alternatives contain no
whitespace characters, so the test is equivalent to trimming and matching
the core exactly. -/
def inlineCitationPattern (s : List Char) : Bool :=
  inlineCore (trimJs s)

/-- `ref-{n}` identifier string. -/
def refId (n : Nat) : List Char :=
  "ref-".data ++ Nat.toDigits 10 n

/-- The five rendering outcomes of the `a` renderer: a reference-target
`span` (rule 1), an in-page numeric anchor (rule 2), a resolved
`CitationLink` with its optional element id (rule 3), an unresolved
`CitationLink` shell (rule 4), and the plain `Link` fallback (rule 5). -/
inductive LinkClass where
  | refTarget (digits : List Char)
  | anchorLink (digits : List Char)
  | citationFound (index : Nat) (anchorId : Option (List Char))
  | citationShell
  | plainLink
  deriving DecidableEq

/-- The element id the rendered node carries: `ref-{digits}` for a
reference-target span, the optional `ref-{index+1}` for a resolved
`CitationLink`, nothing otherwise. -/
def elementId : LinkClass → Option (List Char)
  | .refTarget ds => some ("ref-".data ++ ds)
  | .citationFound _ anchorId => anchorId
  | _ => none

/-- The `a` renderer of the `Markdown` component as a classification
function of the href (`href ?? ""`), the flattened rendered children text,
and the citation list. -/
def classifyLink (href : Option (List Char)) (childrenText : List Char)
    (citations : List Citation) : LinkClass :=
  let hrefStr := href.getD []
  match targetMatch hrefStr with
  | some ds => .refTarget ds
  | none =>
    match linkMatch hrefStr with
    | some ds => .anchorLink ds
    | none =>
      match citations with
      | [] => .plainLink
      | _ :: _ =>
        match mapGet (citationMap citations) hrefStr with
        | some ci =>
          .citationFound ci
            (if inlineCitationPattern childrenText then none
              else some (refId (ci + 1)))
        | none => .citationShell

/-- The `onClick` handler attached to a rule-2 inline numeric anchor:
`e.preventDefault()` unconditionally, then `scrollIntoView` on the element
with id `ref-{digits}` only when the document contains one.  The result is
(default navigation suppressed, scroll target); the handler performs no
navigation of its own, so a missing target is a silent no-op. -/
def refClickHandler (digits : List Char) (domIds : List (List Char)) :
    Bool × Option (List Char) :=
  (true,
    if ("ref-".data ++ digits) ∈ domIds then some ("ref-".data ++ digits)
    else none)

/-! ## CitationLink URL resolution (citation.tsx) -/

/-- The `normalizeUrl` closure of `CitationLink`:
`decodeURIComponent(url).trim()` behind `try/catch`, falling back to
`url.trim()` when decoding throws. -/
def normalizeUrl (url : List Char) : List Char :=
  match decodeURIComponent url with
  | some d => trimJs d
  | none => trimJs url

/-- The citation-matching `useMemo` of `CitationLink`: a falsy href matches
nothing; otherwise `findIndex` on exact url equality, and only if that finds
nothing, `findIndex` on normalized url equality. -/
def findCitation (href : List Char) (citations : List Citation) : Option Nat :=
  if href = [] then none
  else
    match citations.findIdx? (fun c => c.url == href) with
    | some i => some i
    | none =>
      citations.findIdx? (fun c => normalizeUrl c.url == normalizeUrl href)

/-! ## CitationCard access-date formatting (citation.tsx) -/

/-- Numeric value of a run of decimal digit characters. -/
def digitsToNat (l : List Char) : Nat :=
  l.foldl (fun a c => 10 * a + (c.toNat - 48)) 0

/-- Exactly two decimal digits. -/
def twoDigits (l : List Char) : Bool :=
  decide (l.length = 2 ∧ l.all Char.isDigit)

/-- Time-zone designator of the ECMAScript Date Time String Format:
empty, `Z`, or `±HH:mm`. -/
def timeZoneOk : List Char → Bool
  | [] => true
  | ['Z'] => true
  | '+' :: r =>
    twoDigits (r.take 2) &&
      (match r.drop 2 with
        | ':' :: mm => twoDigits mm
        | _ => false)
  | '-' :: r =>
    twoDigits (r.take 2) &&
      (match r.drop 2 with
        | ':' :: mm => twoDigits mm
        | _ => false)
  | _ => false

/-- Time component `HH:mm[:ss[.sss]]` of the ECMAScript Date Time String
Format, followed by an optional time-zone designator.  (Field range checks
beyond the syntactic shape are not modelled; no claim depends on which
in-range time strings parse.) -/
def timePartOk (t : List Char) : Bool :=
  twoDigits (t.take 2) &&
    (match t.drop 2 with
      | ':' :: r =>
        twoDigits (r.take 2) &&
          (match r.drop 2 with
            | ':' :: r2 =>
              twoDigits (r2.take 2) &&
                (match r2.drop 2 with
                  | '.' :: r3 =>
                    decide ((r3.take 3).length = 3 ∧
                        (r3.take 3).all Char.isDigit) &&
                      timeZoneOk (r3.drop 3)
                  | r3 => timeZoneOk r3)
            | r2 => timeZoneOk r2)
      | _ => false)

/-- Models `new Date(s)` for a string argument: the ECMAScript Date Time
String Format `YYYY[-MM[-DD]][THH:mm[:ss[.sss]]][Z|±HH:mm]`, returning the
calendar components on success and `none` for an Invalid Date (NaN time
value).  Host-specific fallback parsing of non-ISO strings is not modelled.
The constructor itself never throws on a string argument. -/
def jsDateParse (s : List Char) : Option (Nat × Nat × Nat) :=
  let y := s.take 4
  if ¬(y.length = 4 ∧ y.all Char.isDigit) then none
  else
    let year := digitsToNat y
    match s.drop 4 with
    | [] => some (year, 1, 1)
    | 'T' :: t => if timePartOk t then some (year, 1, 1) else none
    | '-' :: rest =>
      let mm := rest.take 2
      if ¬(mm.length = 2 ∧ mm.all Char.isDigit) then none
      else
        let mon := digitsToNat mm
        if ¬(1 ≤ mon ∧ mon ≤ 12) then none
        else
          match rest.drop 2 with
          | [] => some (year, mon, 1)
          | 'T' :: t => if timePartOk t then some (year, mon, 1) else none
          | '-' :: rest2 =>
            let dd := rest2.take 2
            if ¬(dd.length = 2 ∧ dd.all Char.isDigit) then none
            else
              let day := digitsToNat dd
              if ¬(1 ≤ day ∧ day ≤ 31) then none
              else
                match rest2.drop 2 with
                | [] => some (year, mon, day)
                | 'T' :: t =>
                  if timePartOk t then some (year, mon, day) else none
                | _ => none
          | _ => none
    | _ => none

/-- Short month name used by the `{ month: "short" }` rendering. -/
def monthShort (m : Nat) : List Char :=
  (["Jan", "Feb", "Mar", "Apr", "May", "Jun", "Jul", "Aug", "Sep", "Oct",
      "Nov", "Dec"].getD (m - 1) "Jan").data

/-- Models `date.toLocaleDateString(undefined, {year: "numeric", month:
"short", day: "numeric"})` in an en-US default locale.  For a NaN time
value it returns the string `"Invalid Date"` (ECMA-402,
`Date.prototype.toLocaleDateString`); it does not throw. -/
def jsToLocaleDateString : Option (Nat × Nat × Nat) → List Char
  | none => "Invalid Date".data
  | some (y, m, d) =>
    monthShort m ++ " ".data ++ Nat.toDigits 10 d ++ ", ".data ++
      Nat.toDigits 10 y

/-- The `formattedDate` `useMemo` of `CitationCard`: a falsy `accessed_at`
(absent or empty) yields `null`; otherwise
`new Date(accessed_at).toLocaleDateString(...)`.  Neither operation throws,
so the `catch { return accessed_at.slice(0, 10) }` fallback is unreachable
for every input. -/
def formattedDate : Option (List Char) → Option (List Char)
  | none => none
  | some s => if s = [] then none else some (jsToLocaleDateString (jsDateParse s))

/-! ### Structural lemmas about the fence-removal loops -/

theorem subIdx_bound (pat : List Char) :
    ∀ (s : List Char) (i : Nat), subIdx pat s = some i → i + pat.length ≤ s.length := by
  intro s
  induction s with
  | nil => intro i h; simp [subIdx] at h
  | cons c rest ih =>
    intro i h
    by_cases hp : pat.isPrefixOf (c :: rest)
    · simp [subIdx, hp] at h
      subst h
      have := (List.isPrefixOf_iff_prefix.mp hp).length_le
      simpa using this
    · simp [subIdx, hp] at h
      obtain ⟨j, hj, rfl⟩ := h
      have := ih j hj
      simp [List.length_cons]
      omega

theorem findFrom_bound {pat s : List Char} {start j : Nat}
    (h : findFrom pat s start = some j) :
    start ≤ j ∧ j + pat.length ≤ s.length := by
  simp [findFrom] at h
  obtain ⟨i, hi, rfl⟩ := h
  have hb := subIdx_bound pat _ i hi
  have hne : s.drop start ≠ [] := by
    intro hh
    rw [hh] at hi
    simp [subIdx] at hi
  have hpos : 0 < (s.drop start).length := List.length_pos.mpr hne
  rw [List.length_drop] at hb hpos
  omega

theorem sweepOneGo_flag (pre suf : List Char) (preLen : Nat) :
    ∀ (fuel : Nat) (s : List Char) (start : Nat),
      (sweepOneGo pre suf preLen fuel s start true).2 = true := by
  intro fuel
  induction fuel with
  | zero => intro s start; simp [sweepOneGo]
  | succ fuel ih =>
    intro s start
    cases hf : findFrom pre s start with
    | none => simp [sweepOneGo, hf]
    | some i =>
      cases he : findFrom suf s (i + preLen) with
      | none => simp only [sweepOneGo, hf, he]; exact ih s (i + preLen)
      | some e => simp only [sweepOneGo, hf, he]; exact ih _ _

theorem sweepOneGo_false (pre suf : List Char) (preLen : Nat) :
    ∀ (fuel : Nat) (s : List Char) (start : Nat) (ch : Bool),
      (sweepOneGo pre suf preLen fuel s start ch).2 = false →
      (sweepOneGo pre suf preLen fuel s start ch).1 = s ∧ ch = false := by
  intro fuel
  induction fuel with
  | zero => intro s start ch h; simpa [sweepOneGo] using h
  | succ fuel ih =>
    intro s start ch h
    cases hf : findFrom pre s start with
    | none =>
      simp [sweepOneGo, hf] at h ⊢
      exact h
    | some i =>
      cases he : findFrom suf s (i + preLen) with
      | none =>
        simp only [sweepOneGo, hf, he] at h ⊢
        exact ih s (i + preLen) ch h
      | some e =>
        simp only [sweepOneGo, hf, he] at h
        have := sweepOneGo_flag pre suf preLen fuel
          (s.take i ++ ((s.take e).drop (i + preLen)) ++ s.drop (e + suf.length))
          (i + ((s.take e).drop (i + preLen)).length)
        rw [h] at this
        exact absurd this (by simp)

theorem sweepOneGo_len (pre suf : List Char) (preLen : Nat) :
    ∀ (fuel : Nat) (s : List Char) (start : Nat) (ch : Bool),
      (sweepOneGo pre suf preLen fuel s start ch).1.length ≤ s.length := by
  intro fuel
  induction fuel with
  | zero => intro s start ch; simp [sweepOneGo]
  | succ fuel ih =>
    intro s start ch
    cases hf : findFrom pre s start with
    | none => simp [sweepOneGo, hf]
    | some i =>
      cases he : findFrom suf s (i + preLen) with
      | none => simp only [sweepOneGo, hf, he]; exact ih s (i + preLen) ch
      | some e =>
        simp only [sweepOneGo, hf, he]
        have h1 := findFrom_bound he
        have h2 := findFrom_bound hf
        refine le_trans (ih _ _ _) ?_
        simp [List.length_take, List.length_drop]
        omega

theorem sweepOneGo_shrink (pre suf : List Char) (preLen : Nat)
    (hsuf : 0 < suf.length) :
    ∀ (fuel : Nat) (s : List Char) (start : Nat),
      (sweepOneGo pre suf preLen fuel s start false).2 = true →
      (sweepOneGo pre suf preLen fuel s start false).1.length < s.length := by
  intro fuel
  induction fuel with
  | zero => intro s start h; simp [sweepOneGo] at h
  | succ fuel ih =>
    intro s start h
    cases hf : findFrom pre s start with
    | none => simp [sweepOneGo, hf] at h
    | some i =>
      cases he : findFrom suf s (i + preLen) with
      | none =>
        simp only [sweepOneGo, hf, he] at h ⊢
        exact ih s (i + preLen) h
      | some e =>
        simp only [sweepOneGo, hf, he]
        have h1 := findFrom_bound he
        have h2 := findFrom_bound hf
        refine lt_of_le_of_lt (sweepOneGo_len pre suf preLen fuel _ _ _) ?_
        simp [List.length_take, List.length_drop]
        omega

theorem sweepAll_false {s : List Char} (h : (sweepAll s).2 = false) :
    (sweepAll s).1 = s := by
  simp only [sweepAll, sweepOne] at h ⊢
  obtain ⟨h3, h3f⟩ := sweepOneGo_false _ _ _ _ _ _ _ h
  rw [h3]
  obtain ⟨h2, h2f⟩ := sweepOneGo_false _ _ _ _ _ _ _ h3f
  rw [h2]
  exact (sweepOneGo_false _ _ _ _ _ _ _ h2f).1

theorem sweepAll_len (s : List Char) : (sweepAll s).1.length ≤ s.length := by
  simp only [sweepAll, sweepOne]
  calc (sweepOneGo barePre fenceSuf 4 _ _ 0 _).1.length
      ≤ _ := sweepOneGo_len _ _ _ _ _ _ _
    _ ≤ _ := sweepOneGo_len _ _ _ _ _ _ _
    _ ≤ s.length := sweepOneGo_len _ _ _ _ _ _ _

theorem sweepAll_shrink {s : List Char} (h : (sweepAll s).2 = true) :
    (sweepAll s).1.length < s.length := by
  have hsuf : 0 < fenceSuf.length := by decide
  simp only [sweepAll, sweepOne] at h ⊢
  cases hb1 : (sweepOneGo mdPre fenceSuf 12 (s.length + 1) s 0 false).2 with
  | true =>
    have l1 := sweepOneGo_shrink mdPre fenceSuf 12 hsuf (s.length + 1) s 0 hb1
    exact lt_of_le_of_lt
      (le_trans (sweepOneGo_len _ _ _ _ _ _ _) (sweepOneGo_len _ _ _ _ _ _ _)) l1
  | false =>
    have e1 : (sweepOneGo mdPre fenceSuf 12 (s.length + 1) s 0 false).1 = s :=
      (sweepOneGo_false _ _ _ _ _ _ _ hb1).1
    rw [hb1] at h
    rw [e1] at h ⊢
    cases hb2 : (sweepOneGo textPre fenceSuf 8 (s.length + 1) s 0 false).2 with
    | true =>
      have l2 := sweepOneGo_shrink textPre fenceSuf 8 hsuf (s.length + 1) s 0 hb2
      exact lt_of_le_of_lt (sweepOneGo_len _ _ _ _ _ _ _) l2
    | false =>
      have e2 : (sweepOneGo textPre fenceSuf 8 (s.length + 1) s 0 false).1 = s :=
        (sweepOneGo_false _ _ _ _ _ _ _ hb2).1
      rw [hb2] at h
      rw [e2] at h ⊢
      exact sweepOneGo_shrink _ _ _ hsuf _ _ _ h

theorem loopGo_fix : ∀ (fuel : Nat) (s : List Char), s.length < fuel →
    sweepAll (loopGo fuel s) = (loopGo fuel s, false) := by
  intro fuel
  induction fuel with
  | zero => intro s h; omega
  | succ fuel ih =>
    intro s h
    cases hb : (sweepAll s).2 with
    | true =>
      have step : loopGo (fuel + 1) s = loopGo fuel (sweepAll s).1 := by
        simp [loopGo, hb]
      rw [step]
      exact ih _ (by have := sweepAll_shrink hb; omega)
    | false =>
      have step : loopGo (fuel + 1) s = (sweepAll s).1 := by
        simp [loopGo, hb]
      rw [step, sweepAll_false hb]
      exact Prod.ext (sweepAll_false hb) hb

theorem normLoop_fix (s : List Char) :
    sweepAll (normLoop s) = (normLoop s, false) :=
  loopGo_fix (s.length + 1) s (Nat.lt_succ_self _)

theorem normLoop_of_fix {s : List Char} (h : sweepAll s = (s, false)) :
    normLoop s = s := by
  have key : ∀ fuel, loopGo (fuel + 1) s = s := by
    intro fuel
    simp [loopGo, h]
  exact key s.length

/-! ### Citation map lemmas -/

theorem mapGet_mapSet (m : List (List Char × Nat)) (a k : List Char) (v : Nat) :
    mapGet (mapSet m a v) k = if k = a then some v else mapGet m k := rfl

theorem insertCitation_get (m : List (List Char × Nat)) (c : Citation) (i : Nat)
    (k : List Char) :
    mapGet (insertCitation m c i) k =
      if k ∈ keysOf c then some i else mapGet m k := by
  by_cases hu : c.url = []
  · simp [insertCitation, keysOf, hu]
  · cases hd : decodeURIComponent c.url with
    | none =>
      by_cases he : encodeURI c.url = c.url
      · have h1 : insertCitation m c i = mapSet m c.url i := by
          simp [insertCitation, hu, hd, he]
        have h2 : keysOf c = [c.url] := by
          simp [keysOf, hu, hd, he]
        rw [h1, h2, mapGet_mapSet]
        simp
      · have h1 : insertCitation m c i =
            mapSet (mapSet m c.url i) (encodeURI c.url) i := by
          simp [insertCitation, hu, hd, he]
        have h2 : keysOf c = [c.url, encodeURI c.url] := by
          simp [keysOf, hu, hd, he]
        rw [h1, h2, mapGet_mapSet, mapGet_mapSet]
        by_cases hke : k = encodeURI c.url <;> by_cases hku : k = c.url <;>
          simp [hke, hku]
    | some d =>
      by_cases hdu : d = c.url
      · by_cases he : encodeURI c.url = c.url
        · have h1 : insertCitation m c i = mapSet m c.url i := by
            simp [insertCitation, hu, hd, hdu, he]
          have h2 : keysOf c = [c.url] := by
            simp [keysOf, hu, hd, hdu, he]
          rw [h1, h2, mapGet_mapSet]
          simp
        · have h1 : insertCitation m c i =
              mapSet (mapSet m c.url i) (encodeURI c.url) i := by
            simp [insertCitation, hu, hd, hdu, he]
          have h2 : keysOf c = [c.url, encodeURI c.url] := by
            simp [keysOf, hu, hd, hdu, he]
          rw [h1, h2, mapGet_mapSet, mapGet_mapSet]
          by_cases hke : k = encodeURI c.url <;> by_cases hku : k = c.url <;>
            simp [hke, hku]
      · by_cases he : encodeURI c.url = c.url
        · have h1 : insertCitation m c i =
              mapSet (mapSet m c.url i) d i := by
            simp [insertCitation, hu, hd, hdu, he]
          have h2 : keysOf c = [c.url, d] := by
            simp [keysOf, hu, hd, hdu, he]
          rw [h1, h2, mapGet_mapSet, mapGet_mapSet]
          by_cases hkd : k = d <;> by_cases hku : k = c.url <;>
            simp [hkd, hku]
        · have h1 : insertCitation m c i =
              mapSet (mapSet (mapSet m c.url i) d i) (encodeURI c.url) i := by
            simp [insertCitation, hu, hd, hdu, he]
          have h2 : keysOf c = [c.url, d, encodeURI c.url] := by
            simp [keysOf, hu, hd, hdu, he]
          rw [h1, h2, mapGet_mapSet, mapGet_mapSet, mapGet_mapSet]
          by_cases hke : k = encodeURI c.url <;> by_cases hkd : k = d <;>
            by_cases hku : k = c.url <;> simp [hke, hkd, hku]

theorem citationMapGo_skip : ∀ (cs : List Citation) (i : Nat)
    (m : List (List Char × Nat)) (k : List Char),
    (∀ j : Fin cs.length, k ∉ keysOf (cs.get j)) →
    mapGet (citationMapGo cs i m) k = mapGet m k := by
  intro cs
  induction cs with
  | nil => intro i m k _; rfl
  | cons c rest ih =>
    intro i m k h
    have h0 : k ∉ keysOf c := h ⟨0, by simp⟩
    have hrest : ∀ j : Fin rest.length, k ∉ keysOf (rest.get j) := by
      intro j
      have := h ⟨j + 1, by simp [Nat.succ_lt_succ j.isLt]⟩
      simpa using this
    simp [citationMapGo, ih _ _ _ hrest, insertCitation_get, h0]

theorem citationMapGo_last : ∀ (cs : List Citation) (j : Fin cs.length) (i : Nat)
    (m : List (List Char × Nat)) (k : List Char),
    k ∈ keysOf (cs.get j) →
    (∀ j' : Fin cs.length, (j : Nat) < (j' : Nat) → k ∉ keysOf (cs.get j')) →
    mapGet (citationMapGo cs i m) k = some (i + (j : Nat)) := by
  intro cs
  induction cs with
  | nil => intro j; exact absurd j.isLt (by simp)
  | cons c rest ih =>
    intro j i m k hk hlater
    match j with
    | ⟨0, h0⟩ =>
      have hrest : ∀ j' : Fin rest.length, k ∉ keysOf (rest.get j') := by
        intro j'
        have := hlater ⟨j' + 1, Nat.succ_lt_succ j'.isLt⟩ (Nat.succ_pos _)
        simpa using this
      have hk0 : k ∈ keysOf c := by simpa using hk
      simp [citationMapGo, citationMapGo_skip rest (i + 1) _ k hrest,
        insertCitation_get, hk0]
    | ⟨jj + 1, hsucc⟩ =>
      have hk' : k ∈ keysOf (rest.get ⟨jj, Nat.lt_of_succ_lt_succ hsucc⟩) := by
        simpa using hk
      have hlater' : ∀ j' : Fin rest.length, jj < (j' : Nat) →
          k ∉ keysOf (rest.get j') := by
        intro j' hlt
        have := hlater ⟨j' + 1, Nat.succ_lt_succ j'.isLt⟩ (Nat.succ_lt_succ hlt)
        simpa using this
      have hrec := ih ⟨jj, Nat.lt_of_succ_lt_succ hsucc⟩ (i + 1)
        (insertCitation m c i) k hk' hlater'
      have harith : i + 1 + jj = i + (jj + 1) := by omega
      simp only [citationMapGo]
      rw [hrec, harith]

/-! ## Claim C1 -/

/-- C1 counterexample: `Map.prototype.set` overwrites, so for the citation
list `[{url:"http://a.com/x%20y"}, {url:"http://a.com/x y"}]` the shared
decoded key `"http://a.com/x y"` and the shared encoded key
`"http://a.com/x%20y"` both resolve to index 1, not index 0 as the
first-writer-wins claim states. -/
theorem c1_first_writer_cex :
    mapGet (citationMap [{ url := "http://a.com/x%20y".data },
        { url := "http://a.com/x y".data }]) "http://a.com/x y".data ≠ some 0 ∧
    mapGet (citationMap [{ url := "http://a.com/x%20y".data },
        { url := "http://a.com/x y".data }]) "http://a.com/x%20y".data ≠ some 0 ∧
    mapGet (citationMap [{ url := "http://a.com/x%20y".data },
        { url := "http://a.com/x y".data }]) "http://a.com/x y".data = some 1 ∧
    mapGet (citationMap [{ url := "http://a.com/x%20y".data },
        { url := "http://a.com/x y".data }]) "http://a.com/x%20y".data = some 1 := by
  decide

/-- C1 (amended): citation map construction is last-writer-wins per key:
when the URL forms (raw, percent-decoded, percent-encoded) of several
citations produce the same lookup key, the key maps to the position of the
citation appearing latest in the list among those producing it — in
particular, for `[{url:"http://a.com/x%20y"}, {url:"http://a.com/x y"}]`,
the shared decoded and encoded keys resolve to index 1. -/
theorem c1_last_writer_wins (cs : List Citation) (k : List Char)
    (j : Fin cs.length) (hk : k ∈ keysOf (cs.get j))
    (hlast : ∀ j' : Fin cs.length, (j : Nat) < (j' : Nat) →
      k ∉ keysOf (cs.get j')) :
    mapGet (citationMap cs) k = some (j : Nat) := by
  have := citationMapGo_last cs j 0 [] k hk hlast
  simpa [citationMap] using this

/-- C1 witness: the amended last-writer-wins theorem applied to the claim's
own example, resolving the shared decoded key to index 1. -/
theorem c1_last_writer_wins_witness :
    mapGet (citationMap [{ url := "http://a.com/x%20y".data },
        { url := "http://a.com/x y".data }]) "http://a.com/x y".data = some 1 :=
  c1_last_writer_wins _ _ ⟨1, by decide⟩ (by decide) (by decide)

/-! ## Claim C2 -/

/-- C2 counterexample: the empty string is falsy in JavaScript, so
`dropMarkdownQuote("")` returns `null`, not `""` as the claim states. -/
theorem c2_empty_string_cex : dropMarkdownQuote (some []) ≠ some [] := by decide

/-- C2 (amended): `dropMarkdownQuote` maps `null`/absent input to `null`, and
also maps the empty string to `null` — the guard `if (!markdown) return null`
treats the empty string as falsy, so `""` does not pass through unchanged. -/
theorem c2_falsy_inputs_amended :
    dropMarkdownQuote none = none ∧ dropMarkdownQuote (some []) = none := by
  decide

/-! ## Claim C3 -/

/-- C3 counterexample: `dropMarkdownQuote` is not idempotent for every input.
On `"```markdown\n```markdown\nhello"` the unterminated-wrapper pass strips
one opening fence, leaving `"```markdown\nhello"`, which a second run strips
again to `"hello"`. -/
theorem c3_not_idempotent_cex :
    dropMarkdownQuote
        (dropMarkdownQuote (some "```markdown\n```markdown\nhello".data)) ≠
      dropMarkdownQuote (some "```markdown\n```markdown\nhello".data) := by
  decide

/-- C3 (amended): `dropMarkdownQuote` is idempotent on every input whose
output is nonempty and does not itself begin with a recognized opening fence
lacking the matching closing fence (i.e. the unterminated-wrapper pass leaves
the output unchanged); re-running it on such an output returns the output
unchanged. -/
theorem c3_idempotent_amended (md : Option (List Char)) (r : List Char)
    (h : dropMarkdownQuote md = some r) (hne : r ≠ []) (hp : pass1 r = r) :
    dropMarkdownQuote (some r) = some r := by
  cases md with
  | none => simp [dropMarkdownQuote] at h
  | some m =>
    by_cases hm : m.isEmpty
    · simp [dropMarkdownQuote, hm] at h
    · simp [dropMarkdownQuote, hm] at h
      have hfix : sweepAll r = (r, false) := by
        rw [← h]
        exact normLoop_fix (pass1 m)
      have hre : r.isEmpty = false := by
        cases r with
        | nil => exact absurd rfl hne
        | cons a t => rfl
      simp [dropMarkdownQuote, hre, hp, normLoop_of_fix hfix]

/-- C3 witness: a concrete run of the amended idempotence theorem. -/
theorem c3_idempotent_amended_witness :
    dropMarkdownQuote (some "abc".data) = some "abc".data :=
  c3_idempotent_amended (some "```markdown\nabc\n```".data) "abc".data
    (by decide) (by decide) (by decide)

/-! ### Link matcher lemmas -/

theorem dropLit_append : ∀ (l r : List Char), dropLit l (l ++ r) = some r := by
  intro l
  induction l with
  | nil => intro r; rfl
  | cons c ls ih => intro r; simp [dropLit, ih]

theorem dropLit_ref_digits (ds : List Char) (h1 : ds ≠ [])
    (h2 : ds.all Char.isDigit) : dropLit "ref".data ds = none := by
  cases ds with
  | nil => exact absurd rfl h1
  | cons d t =>
    have hd : d.isDigit = true := by
      simp [List.all_cons] at h2
      exact h2.1
    have hne : d ≠ 'r' := by
      intro he
      rw [he] at hd
      exact absurd hd (by decide)
    have hl : "ref".data = 'r' :: "ef".data := rfl
    rw [hl]
    simp [dropLit, hne]

theorem digits_head_not_hyphen (ds : List Char) (h1 : ds ≠ [])
    (h2 : ds.all Char.isDigit) : ds.head? ≠ some '-' := by
  cases ds with
  | nil => exact absurd rfl h1
  | cons d t =>
    have hd : d.isDigit = true := by
      simp [List.all_cons] at h2
      exact h2.1
    intro he
    simp at he
    rw [he] at hd
    exact absurd hd (by decide)

theorem targetMatch_literal (ds : List Char) (h1 : ds ≠ [])
    (h2 : ds.all Char.isDigit) :
    targetMatch ("#citation-target-".data ++ ds) = some ds := by
  have h2' : ∀ x ∈ ds, x.isDigit = true := by simpa using h2
  unfold targetMatch
  rw [dropLit_append]
  simp [h1, h2']
  exact h2'

theorem linkMatch_bare (ds : List Char) (h1 : ds ≠ [])
    (h2 : ds.all Char.isDigit) : linkMatch ('#' :: ds) = some ds := by
  have h2' : ∀ x ∈ ds, x.isDigit = true := by simpa using h2
  simp only [linkMatch]
  rw [dropLit_ref_digits ds h1 h2]
  simp [h1, h2']
  exact h2'

theorem linkMatch_ref (ds : List Char) (h1 : ds ≠ [])
    (h2 : ds.all Char.isDigit) :
    linkMatch ('#' :: ("ref".data ++ ds)) = some ds := by
  have h2' : ∀ x ∈ ds, x.isDigit = true := by simpa using h2
  simp only [linkMatch]
  rw [dropLit_append]
  simp [digits_head_not_hyphen ds h1 h2, h1, h2']
  exact h2'

theorem linkMatch_ref_hyphen (ds : List Char) (h1 : ds ≠ [])
    (h2 : ds.all Char.isDigit) :
    linkMatch ('#' :: ("ref".data ++ '-' :: ds)) = some ds := by
  have h2' : ∀ x ∈ ds, x.isDigit = true := by simpa using h2
  simp only [linkMatch]
  rw [dropLit_append]
  simp [h1, h2']
  exact h2'

/-! ### findIdx? characterization -/

theorem findIdx?_first {α : Type} (p : α → Bool) :
    ∀ (l : List α) (i : Nat) (j : Fin l.length), p (l.get j) = true →
    (∀ k : Fin l.length, (k : Nat) < (j : Nat) → p (l.get k) = false) →
    List.findIdx? p l i = some (i + (j : Nat)) := by
  intro l
  induction l with
  | nil => intro i j; exact absurd j.isLt (by simp)
  | cons x xs ih =>
    intro i j hj hlt
    match j with
    | ⟨0, h0⟩ =>
      have hx : p x = true := by simpa using hj
      simp [List.findIdx?_cons, hx]
    | ⟨jj + 1, hs⟩ =>
      have hx : p x = false := by
        have := hlt ⟨0, Nat.succ_pos _⟩ (by simp)
        simpa using this
      have hj' : p (xs.get ⟨jj, Nat.lt_of_succ_lt_succ hs⟩) = true := by
        simpa using hj
      have hlt' : ∀ k : Fin xs.length, (k : Nat) < jj →
          p (xs.get k) = false := by
        intro k hk
        have := hlt ⟨k + 1, Nat.succ_lt_succ k.isLt⟩ (Nat.succ_lt_succ hk)
        simpa using this
      have hrec := ih (i + 1) ⟨jj, Nat.lt_of_succ_lt_succ hs⟩ hj' hlt'
      rw [List.findIdx?_cons, if_neg (by simp [hx]), hrec]
      show some (i + 1 + jj) = some (i + (jj + 1))
      congr 1
      omega

theorem findIdx?_all_false {α : Type} (p : α → Bool) (l : List α)
    (h : ∀ k : Fin l.length, p (l.get k) = false) :
    List.findIdx? p l = none := by
  rw [List.findIdx?_eq_none_iff]
  intro x hx
  obtain ⟨n, rfl⟩ := List.mem_iff_get.mp hx
  exact h n

/-! ## Claim C5 -/

/-- C5 counterexample: with an empty citation list the href
`#citation-target-3` still classifies as a reference-target anchor (rule 1),
not as a plain external link, so not every href falls through to rule 5. -/
theorem c5_empty_list_cex :
    classifyLink (some "#citation-target-3".data) [] [] ≠
      LinkClass.plainLink := by
  decide

/-- C5 (amended): with an empty citation list, every href that matches
neither the reference-target pattern (rule 1) nor the inline numeric-anchor
pattern (rule 2) classifies as a plain external link under the rule-5
fallback; hrefs matching those patterns classify as rules 1 and 2 regardless
of the empty list. -/
theorem c5_empty_list_amended (href : Option (List Char))
    (children : List Char) (h1 : targetMatch (href.getD []) = none)
    (h2 : linkMatch (href.getD []) = none) :
    classifyLink href children [] = LinkClass.plainLink := by
  simp [classifyLink, h1, h2]

/-- C5 witness: a plain external URL with no citations classifies as a
plain link. -/
theorem c5_empty_list_amended_witness :
    classifyLink (some "http://example.com".data) [] [] =
      LinkClass.plainLink :=
  c5_empty_list_amended (some "http://example.com".data) []
    (by decide) (by decide)

/-! ## Claim C6 -/

/-- C6: an href of exactly hash, `citation-target-`, then one or more
decimal digits always classifies as a reference-target anchor carrying
element id `ref-{digits}`, for every citation list (present, absent keys, or
empty) and every rendered children text — the rule precedes all others. -/
theorem c6_reference_target (ds : List Char) (h1 : ds ≠ [])
    (h2 : ds.all Char.isDigit) (children : List Char)
    (cits : List Citation) :
    classifyLink (some ("#citation-target-".data ++ ds)) children cits =
        LinkClass.refTarget ds ∧
      elementId (LinkClass.refTarget ds) = some ("ref-".data ++ ds) := by
  constructor
  · have ht := targetMatch_literal ds h1 h2
    simp only [classifyLink, Option.getD_some]
    rw [ht]
  · rfl

/-- C6 witness: `#citation-target-3` classifies as a reference target with
id `ref-3` both with and without citations. -/
theorem c6_reference_target_witness :
    (classifyLink (some ("#citation-target-".data ++ "3".data)) "[3]".data
          [{ url := "http://one.example".data }] =
        LinkClass.refTarget "3".data ∧
      elementId (LinkClass.refTarget "3".data) = some ("ref-".data ++ "3".data)) ∧
    (classifyLink (some ("#citation-target-".data ++ "3".data)) [] [] =
        LinkClass.refTarget "3".data ∧
      elementId (LinkClass.refTarget "3".data) = some ("ref-".data ++ "3".data)) :=
  ⟨c6_reference_target "3".data (by decide) (by decide) "[3]".data
      [{ url := "http://one.example".data }],
    c6_reference_target "3".data (by decide) (by decide) [] []⟩

/-! ## Claim C7 -/

/-- C7: a link whose href resolves through the citation map to 0-based index
`i` (and matches neither anchor rule) is classified from its flattened
rendered text: a short-numeric-marker text yields an inline citation marker
with no id, any other text yields a reference-list entry with id
`ref-{i+1}`. -/
theorem c7_inline_vs_title (href children : List Char) (cits : List Citation)
    (i : Nat) (h1 : targetMatch href = none) (h2 : linkMatch href = none)
    (h3 : mapGet (citationMap cits) href = some i) :
    classifyLink (some href) children cits =
      LinkClass.citationFound i
        (if inlineCitationPattern children then none
          else some (refId (i + 1))) := by
  cases cits with
  | nil => simp [citationMap, citationMapGo, mapGet] at h3
  | cons c rest => simp [classifyLink, h1, h2, h3]

/-- C7 witness: for a known citation at index 2, rendered text `"[3]"`
classifies inline with no id, while `"Official Site Documentation"`
classifies as a reference-list entry with id `ref-3`. -/
theorem c7_inline_vs_title_witness :
    classifyLink (some "http://site.example/doc".data) "[3]".data
        [{ url := "http://one.example".data },
          { url := "http://two.example".data },
          { url := "http://site.example/doc".data }] =
      LinkClass.citationFound 2 none ∧
    classifyLink (some "http://site.example/doc".data)
        "Official Site Documentation".data
        [{ url := "http://one.example".data },
          { url := "http://two.example".data },
          { url := "http://site.example/doc".data }] =
      LinkClass.citationFound 2 (some "ref-3".data) :=
  ⟨(c7_inline_vs_title "http://site.example/doc".data "[3]".data
      [{ url := "http://one.example".data },
        { url := "http://two.example".data },
        { url := "http://site.example/doc".data }] 2
      (by decide) (by decide) (by decide)).trans (by decide),
    (c7_inline_vs_title "http://site.example/doc".data
      "Official Site Documentation".data
      [{ url := "http://one.example".data },
        { url := "http://two.example".data },
        { url := "http://site.example/doc".data }] 2
      (by decide) (by decide) (by decide)).trans (by decide)⟩

/-! ## Claim C8 -/

/-- C8 counterexample: the claim's href grammar "hash, optional `ref`,
optional hyphen, digits" admits `#-1`, but the regex
`/^#(?:ref-?)?(\d+)$/` allows the hyphen only after the literal `ref`:
`#-1` does not match rule 2 and (with no citations) renders as a plain
external link with default navigation, not as a scroll anchor. -/
theorem c8_hyphen_cex :
    linkMatch "#-1".data = none ∧
    classifyLink (some "#-1".data) [] [] = LinkClass.plainLink ∧
    classifyLink (some "#-1".data) [] [] ≠ LinkClass.anchorLink "1".data := by
  decide

/-- C8 (amended): for every href of the form hash, then optionally the
literal `ref` optionally followed by a hyphen, then one or more decimal
digits (`#1`, `#ref1`, `#ref-1`), rule 2 matches and the link classifies as
an in-page anchor whose click handler suppresses default navigation
unconditionally and smooth-scrolls to the element with id `ref-{digits}`
when the document has one; with no such element the click is a silent no-op
performing no navigation. -/
theorem c8_anchor_scroll (ds : List Char) (h1 : ds ≠ [])
    (h2 : ds.all Char.isDigit) :
    (linkMatch ('#' :: ds) = some ds ∧
      linkMatch ('#' :: ("ref".data ++ ds)) = some ds ∧
      linkMatch ('#' :: ("ref".data ++ '-' :: ds)) = some ds) ∧
    (∀ (href children : List Char) (cits : List Citation),
      targetMatch href = none → linkMatch href = some ds →
      classifyLink (some href) children cits = LinkClass.anchorLink ds) ∧
    (∀ domIds : List (List Char),
      refClickHandler ds domIds =
        (true,
          if ("ref-".data ++ ds) ∈ domIds then some ("ref-".data ++ ds)
          else none)) := by
  refine ⟨⟨linkMatch_bare ds h1 h2, linkMatch_ref ds h1 h2,
    linkMatch_ref_hyphen ds h1 h2⟩, ?_, fun _ => rfl⟩
  intro href children cits ht hl
  simp [classifyLink, ht, hl]

/-- C8 witness: `#ref-1` classifies as an anchor link; its click handler
suppresses navigation and scrolls to `ref-1` when present, and does nothing
further when absent. -/
theorem c8_anchor_scroll_witness :
    linkMatch ('#' :: ("ref".data ++ '-' :: "1".data)) = some "1".data ∧
    classifyLink (some "#ref-1".data) [] [] = LinkClass.anchorLink "1".data ∧
    refClickHandler "1".data ["ref-1".data] = (true, some "ref-1".data) ∧
    refClickHandler "1".data [] = (true, none) :=
  ⟨(c8_anchor_scroll "1".data (by decide) (by decide)).1.2.2,
    (c8_anchor_scroll "1".data (by decide) (by decide)).2.1 "#ref-1".data [] []
      (by decide) (by decide),
    ((c8_anchor_scroll "1".data (by decide) (by decide)).2.2
        ["ref-1".data]).trans (by decide),
    ((c8_anchor_scroll "1".data (by decide) (by decide)).2.2 []).trans
      (by decide)⟩

/-! ## Claim C4 -/

/-- C4: contrary to the claim, a citation whose `accessed_at` fails to parse
does not fall back to the first 10 characters of the raw string: neither
`new Date(s)` nor `toLocaleDateString` throws, so the `catch` branch is dead
and the displayed date is the string `"Invalid Date"`. -/
theorem c4_dead_catch_fallback :
    jsDateParse "invalid-timestamp".data = none ∧
    formattedDate (some "invalid-timestamp".data) =
      some "Invalid Date".data ∧
    formattedDate (some "invalid-timestamp".data) ≠
      some (("invalid-timestamp".data).take 10) := by
  decide

/-! ## Claim C10 -/

/-- C10: `CitationLink` resolves its href in two ordered passes, each taking
the earliest match in the list: first the smallest index whose url equals
the href exactly; only when no exact match exists, the smallest index whose
url agrees with the href after normalization (percent-decoding when it
succeeds, identity otherwise, then trimming). -/
theorem c10_two_pass (href : List Char) (cits : List Citation)
    (hne : href ≠ []) :
    (∀ j : Fin cits.length, (cits.get j).url = href →
      (∀ k : Fin cits.length, (k : Nat) < (j : Nat) →
        (cits.get k).url ≠ href) →
      findCitation href cits = some (j : Nat)) ∧
    ((∀ j : Fin cits.length, (cits.get j).url ≠ href) →
      ∀ j : Fin cits.length,
      normalizeUrl (cits.get j).url = normalizeUrl href →
      (∀ k : Fin cits.length, (k : Nat) < (j : Nat) →
        normalizeUrl (cits.get k).url ≠ normalizeUrl href) →
      findCitation href cits = some (j : Nat)) := by
  constructor
  · intro j hj hk
    have h1 : List.findIdx? (fun c => c.url == href) cits =
        some (0 + (j : Nat)) :=
      findIdx?_first _ cits 0 j (by simpa using hj)
        (fun k hlt => by simpa using hk k hlt)
    simp [findCitation, hne, h1]
  · intro hnone j hj hk
    have h0 : List.findIdx? (fun c => c.url == href) cits = none :=
      findIdx?_all_false _ cits (fun k => by simpa using hnone k)
    have h1 : List.findIdx?
        (fun c => normalizeUrl c.url == normalizeUrl href) cits =
        some (0 + (j : Nat)) :=
      findIdx?_first _ cits 0 j (by simpa using hj)
        (fun k hlt => by simpa using hk k hlt)
    simp [findCitation, hne, h0, h1]

/-- C10 witness: an href equal to a citation url resolves exactly to the
earliest such index, and an href differing from a citation url only by
percent-encoding resolves through the normalization pass. -/
theorem c10_two_pass_witness :
    findCitation "http://a.com/x y".data
        [{ url := "http://b.com".data },
          { url := "http://a.com/x%20y".data }] = some 1 ∧
    findCitation "http://b.com".data
        [{ url := "http://b.com".data },
          { url := "http://a.com/x%20y".data }] = some 0 :=
  ⟨(c10_two_pass "http://a.com/x y".data
        [{ url := "http://b.com".data },
          { url := "http://a.com/x%20y".data }] (by decide)).2
      (by decide) ⟨1, by decide⟩ (by decide) (by decide),
    (c10_two_pass "http://b.com".data
        [{ url := "http://b.com".data },
          { url := "http://a.com/x%20y".data }] (by decide)).1
      ⟨0, by decide⟩ (by decide) (by decide)⟩

/-! ## Claim C9 -/

/-- C9: `dropMarkdownQuote` terminates on every input: any sweep of the
repeat-until-no-change loop that performs a fence-pair removal strictly
shortens the working string, so with fuel `length + 1` the outer loop reaches
a genuine fixpoint (a final sweep that changes nothing) and
`dropMarkdownQuote` returns its value. -/
theorem c9_terminating (s : List Char) :
    ((sweepAll s).2 = true → (sweepAll s).1.length < s.length) ∧
    dropMarkdownQuote (some s) =
      (if s.isEmpty then none else some (normLoop (pass1 s))) ∧
    sweepAll (normLoop (pass1 s)) = (normLoop (pass1 s), false) :=
  ⟨fun h => sweepAll_shrink h, rfl, normLoop_fix _⟩

/-- C9 witness: on a concrete fenced input the first sweep performs a removal
and strictly shortens the string, and the loop output is a sweep fixpoint. -/
theorem c9_terminating_witness :
    (sweepAll "```\nx\n```".data).1.length < "```\nx\n```".data.length ∧
      sweepAll (normLoop (pass1 "```\nx\n```".data)) =
        (normLoop (pass1 "```\nx\n```".data), false) :=
  ⟨(c9_terminating "```\nx\n```".data).1 (by decide),
    (c9_terminating "```\nx\n```".data).2.2⟩

end DeerFlow
